import Mathlib

/-!
Verification of `src/next_array.rs` from the itertools repository.

The source defines `ArrayBuilder<T, N>`, a partially initialized fixed-size
array (`arr: [MaybeUninit<T>; N]` together with a count `len` of valid leading
slots), with operations `new`, `push`, `take`, a `Drop` implementation that
destroys exactly the valid prefix, and a driver `next_array` that pulls up to
`N` items from an iterator.

Embedding conventions:
* A `MaybeUninit<T>` slot is modelled as `Option T`: `none` is an
  uninitialized slot, `some v` a slot holding the live value `v`.
* A panic (the out-of-bounds index in `push`) is modelled by returning `none`
  from `push`; a successful, non-panicking call returns `some` of the updated
  builder.  This is distinct from the value-level `Option` result of `take`,
  which is part of the builder state/result pair.
* `assume_init` on an uninitialized slot is undefined behaviour in the
  source; the model makes `assumeInitAll` return `none` in that case, which
  is proven unreachable under the builder invariant.
* An iterator is modelled as the list of items it will yield; `next` is
  head/tail.  `next_array` returns, besides the `Option` result, the
  remaining iterator, the list of elements destroyed when the builder is
  dropped at the end of the call, and the number of `next` calls made.
-/

/-- Model of `ArrayBuilder<T, N>`: `arr` is the backing storage of
`MaybeUninit<T>` slots (see module docstring), `len` the number of leading
valid slots. -/
structure ArrayBuilder (T : Type) (N : Nat) where
  arr : List (Option T)
  len : Nat
deriving DecidableEq, Repr

/-- Model of `ArrayBuilder::new()`: all `N` slots uninitialized, `len = 0`. -/
def ArrayBuilder.new (T : Type) (N : Nat) : ArrayBuilder T N :=
  { arr := List.replicate N none, len := 0 }

/-- Model of `ArrayBuilder::push`: `self.arr[self.len] = MaybeUninit::new(value);
self.len += 1;`.  The indexing `self.arr[self.len]` panics exactly when
`self.len >= self.arr.len()`; the panic is modelled by result `none`. -/
def ArrayBuilder.push {T : Type} {N : Nat} (b : ArrayBuilder T N) (v : T) :
    Option (ArrayBuilder T N) :=
  if b.len < b.arr.length then
    some { arr := b.arr.set b.len (some v), len := b.len + 1 }
  else
    none

/-- Model of `arr.map(|v| v.assume_init())` from `ArrayBuilder::take`:
turns a list of slots into the list of their values; `none` when some slot is
uninitialized (undefined behaviour in the source, unreachable under the
invariant). -/
def assumeInitAll {T : Type} : List (Option T) → Option (List T)
  | [] => some []
  | some x :: rest => (assumeInitAll rest).map (fun l => x :: l)
  | none :: _ => none

/-- Model of `ArrayBuilder::take`: if `len == N`, reset `len` to `0`, replace
the storage by fresh uninitialized slots and return the extracted values;
otherwise return `None` and leave the builder unchanged. -/
def ArrayBuilder.take {T : Type} {N : Nat} (b : ArrayBuilder T N) :
    Option (List T) × ArrayBuilder T N :=
  if b.len = N then
    (assumeInitAll b.arr, { arr := List.replicate N none, len := 0 })
  else
    (none, b)

/-- Model of `impl Drop for ArrayBuilder`: the values destroyed when the
builder is dropped, namely the values of the slots `arr[..len]`
(`ptr::drop_in_place` on the slice of the first `len` slots), in index
order. -/
def ArrayBuilder.droppedElems {T : Type} {N : Nat} (b : ArrayBuilder T N) :
    List T :=
  (b.arr.take b.len).filterMap id

/-- The safety invariant documented on `ArrayBuilder`: the storage has exactly
`N` slots, `len <= N`, and the slots of `arr[..len]` are valid (initialized)
values. -/
def ArrayBuilder.Inv {T : Type} {N : Nat} (b : ArrayBuilder T N) : Prop :=
  b.arr.length = N ∧ b.len ≤ N ∧ ∀ o ∈ b.arr.take b.len, o.isSome

instance {T : Type} {N : Nat} [DecidableEq T] (b : ArrayBuilder T N) :
    Decidable b.Inv := by
  unfold ArrayBuilder.Inv
  infer_instance

/-- Outcome of one `next_array` call on a list-modelled iterator:
the returned value, the items left in the iterator, the elements destroyed by
the builder's drop at the end of the call, and the number of `next` calls. -/
structure FillOutcome (T : Type) where
  result : Option (List T)
  rest : List T
  dropped : List T
  calls : Nat
deriving DecidableEq, Repr

/-- The loop of `next_array`: `for _ in 0..N { builder.push(it.next()?); }`
followed by `builder.take()`.  `fuel` is the number of loop iterations left,
`calls` the number of `next` calls made so far.  The outer `Option` is `none`
exactly when `push` panics (proven unreachable).  On the `?` early return and
after `take`, the builder goes out of scope and is dropped, producing the
`dropped` field. -/
def next_array_go (T : Type) (N : Nat) :
    Nat → ArrayBuilder T N → List T → Nat → Option (FillOutcome T)
  | 0, b, it, calls =>
    let r := b.take
    some { result := r.1, rest := it, dropped := r.2.droppedElems, calls := calls }
  | _ + 1, b, [], calls =>
    some { result := none, rest := [], dropped := b.droppedElems, calls := calls + 1 }
  | fuel + 1, b, x :: it, calls =>
    match b.push x with
    | some b2 => next_array_go T N fuel b2 it (calls + 1)
    | none => none

/-- Model of `next_array<I, T, N>`: build an `ArrayBuilder`, pull up to `N`
items from the iterator, then `take`. -/
def next_array {T : Type} (N : Nat) (it : List T) : Option (FillOutcome T) :=
  next_array_go T N N (ArrayBuilder.new T N) it 0

/-- Repeated `push`, used to state claims about a builder built by appending a
given list of elements; `none` if some `push` panics. -/
def pushAll {T : Type} {N : Nat} :
    ArrayBuilder T N → List T → Option (ArrayBuilder T N)
  | b, [] => some b
  | b, x :: xs =>
    match b.push x with
    | some b2 => pushAll b2 xs
    | none => none

/-- The builder state reached after appending the elements of `acc` to a fresh
builder of capacity `N` (for `acc.length ≤ N`). -/
def builderOf (T : Type) (N : Nat) (acc : List T) : ArrayBuilder T N :=
  { arr := acc.map some ++ List.replicate (N - acc.length) none
    len := acc.length }

/-! ### Helper lemmas -/

theorem set_append_cons {α : Type} (l1 : List α) (a : α) (l2 : List α) (b : α) :
    (l1 ++ a :: l2).set l1.length b = l1 ++ b :: l2 := by
  induction l1 with
  | nil => rfl
  | cons y ys ih => simp [List.set, ih]

theorem take_append_full {α : Type} (l1 l2 : List α) :
    (l1 ++ l2).take l1.length = l1 := by
  induction l1 with
  | nil => rfl
  | cons y ys ih => simp [ih]

theorem filterMap_id_map_some {α : Type} (l : List α) :
    (l.map some).filterMap id = l := by
  induction l with
  | nil => rfl
  | cons y ys ih => simp [ih]

theorem assumeInitAll_map_some {α : Type} (l : List α) :
    assumeInitAll (l.map some) = some l := by
  induction l with
  | nil => rfl
  | cons y ys ih => simp [assumeInitAll, ih]

theorem push_builderOf (T : Type) (N : Nat) (acc : List T) (x : T)
    (h : acc.length < N) :
    (builderOf T N acc).push x = some (builderOf T N (acc ++ [x])) := by
  unfold ArrayBuilder.push builderOf
  simp only []
  have hlen :
      (acc.map some ++ List.replicate (N - acc.length) (none : Option T)).length = N := by
    simp; omega
  rw [hlen, if_pos h]
  have hrep : List.replicate (N - acc.length) (none : Option T)
      = none :: List.replicate (N - (acc.length + 1)) none := by
    have hsplit : N - acc.length = (N - (acc.length + 1)) + 1 := by omega
    rw [hsplit, List.replicate_succ]
  rw [hrep]
  have hidx : acc.length = (acc.map some).length := by simp
  rw [hidx, set_append_cons]
  simp

theorem droppedElems_builderOf (T : Type) (N : Nat) (acc : List T) :
    (builderOf T N acc).droppedElems = acc := by
  unfold ArrayBuilder.droppedElems builderOf
  simp only []
  have hidx : acc.length = (acc.map some).length := by simp
  rw [hidx, take_append_full, filterMap_id_map_some]

theorem take_builderOf_full (T : Type) (N : Nat) (acc : List T)
    (h : acc.length = N) :
    (builderOf T N acc).take = (some acc, ArrayBuilder.new T N) := by
  unfold ArrayBuilder.take builderOf ArrayBuilder.new
  subst h
  simp [assumeInitAll_map_some]

theorem builderOf_nil (T : Type) (N : Nat) :
    builderOf T N [] = ArrayBuilder.new T N := by
  simp [builderOf, ArrayBuilder.new]

/-- Complete characterization of `next_array` on a list-modelled iterator:
it never panics; with at least `N` items available it returns the first `N`
items, leaves the rest, drops nothing and makes `N` calls; otherwise it
returns `none`, exhausts the iterator, drops exactly the pulled items and
makes `length + 1` calls. -/
theorem next_array_go_builderOf (T : Type) (N : Nat) (fuel : Nat)
    (acc it : List T) (calls : Nat) (h : acc.length + fuel = N) :
    next_array_go T N fuel (builderOf T N acc) it calls =
      (if fuel ≤ it.length then
        some { result := some (acc ++ it.take fuel), rest := it.drop fuel,
               dropped := [], calls := calls + fuel }
      else
        some { result := none, rest := [], dropped := acc ++ it,
               calls := calls + it.length + 1 }) := by
  induction fuel generalizing acc it calls with
  | zero =>
    have hl : acc.length = N := by omega
    simp only [next_array_go, take_builderOf_full T N acc hl]
    simp [ArrayBuilder.droppedElems, ArrayBuilder.new]
  | succ k ih =>
    cases it with
    | nil =>
      simp only [next_array_go]
      rw [droppedElems_builderOf]
      simp
    | cons x it2 =>
      simp only [next_array_go]
      rw [push_builderOf T N acc x (by omega)]
      simp only []
      rw [ih (acc ++ [x]) it2 (calls + 1) (by simp; omega)]
      by_cases hk : k ≤ it2.length
      · rw [if_pos hk, if_pos (by simp; omega)]
        simp only [List.take_succ_cons, List.drop_succ_cons, List.append_assoc,
          List.cons_append, List.nil_append]
        congr 1
        simp
        omega
      · rw [if_neg hk, if_neg (by simp; omega)]
        simp only [List.append_assoc, List.cons_append, List.nil_append,
          List.length_cons]
        congr 1
        simp
        omega

theorem next_array_eq (T : Type) (N : Nat) (it : List T) :
    next_array N it =
      (if N ≤ it.length then
        some { result := some (it.take N), rest := it.drop N,
               dropped := [], calls := N }
      else
        some { result := none, rest := [], dropped := it,
               calls := it.length + 1 }) := by
  unfold next_array
  rw [← builderOf_nil, next_array_go_builderOf T N N [] it 0 (by simp)]
  simp

theorem getD_set_self {α : Type} (l : List α) (n : Nat) (a d : α)
    (h : n < l.length) : (l.set n a).getD n d = a := by
  induction l generalizing n with
  | nil => simp at h
  | cons y ys ih =>
    cases n with
    | zero => rfl
    | succ m =>
      simp only [List.set_cons_succ, List.getD_cons_succ]
      exact ih m (by simpa using h)

theorem getD_set_ne {α : Type} (l : List α) (n : Nat) (a d : α) (i : Nat)
    (h : i ≠ n) : (l.set n a).getD i d = l.getD i d := by
  induction l generalizing n i with
  | nil => rfl
  | cons y ys ih =>
    cases n with
    | zero =>
      cases i with
      | zero => exact absurd rfl h
      | succ j => simp only [List.set_cons_zero, List.getD_cons_succ]
    | succ m =>
      cases i with
      | zero => simp only [List.set_cons_succ, List.getD_cons_zero]
      | succ j =>
        simp only [List.set_cons_succ, List.getD_cons_succ]
        exact ih m j (by omega)

theorem take_succ_set {α : Type} (l : List α) (n : Nat) (a : α)
    (h : n < l.length) : (l.set n a).take (n + 1) = l.take n ++ [a] := by
  induction l generalizing n with
  | nil => simp at h
  | cons y ys ih =>
    cases n with
    | zero => rfl
    | succ m =>
      simp only [List.set_cons_succ, List.take_succ_cons, List.cons_append]
      rw [ih m (by simpa using h)]

theorem getD_replicate_none {α : Type} (k i : Nat) :
    (List.replicate k (none : Option α)).getD i none = none := by
  induction k generalizing i with
  | zero => rfl
  | succ m ih =>
    cases i with
    | zero => rfl
    | succ j =>
      simp only [List.replicate_succ, List.getD_cons_succ]
      exact ih j

theorem filterMap_id_length {α : Type} (l : List (Option α))
    (h : ∀ o ∈ l, o.isSome) : (l.filterMap id).length = l.length := by
  induction l with
  | nil => rfl
  | cons y ys ih =>
    cases y with
    | none => simpa using h none (by simp)
    | some x =>
      simp only [List.filterMap_cons, id, List.length_cons]
      rw [ih (fun o ho => h o (by simp [ho]))]

theorem assumeInitAll_eq_filterMap {α : Type} (l : List (Option α))
    (h : ∀ o ∈ l, o.isSome) : assumeInitAll l = some (l.filterMap id) := by
  induction l with
  | nil => rfl
  | cons y ys ih =>
    cases y with
    | none => simpa using h none (by simp)
    | some x =>
      simp only [assumeInitAll, List.filterMap_cons, id]
      rw [ih (fun o ho => h o (by simp [ho]))]
      rfl

theorem pushAll_builderOf (T : Type) (N : Nat) (acc xs : List T)
    (h : acc.length + xs.length ≤ N) :
    pushAll (builderOf T N acc) xs = some (builderOf T N (acc ++ xs)) := by
  induction xs generalizing acc with
  | nil => simp [pushAll]
  | cons x xs ih =>
    simp only [pushAll]
    rw [push_builderOf T N acc x (by simp at h; omega)]
    simp only []
    rw [ih (acc ++ [x]) (by simp at h ⊢; omega)]
    simp

/-! ### Claim theorems -/

/-- C1: for every `N ≥ 0` and every iterator holding at least `N` remaining
items, `next_array` returns `some` of an array whose elements equal the first
`N` items of the iterator in pull order (`it.take N`, of length `N`), exactly
`N` items are consumed (the iterator is left at `it.drop N`), and nothing is
dropped. -/
theorem next_array_complete {T : Type} (N : Nat) (it : List T)
    (h : N ≤ it.length) :
    next_array N it =
      some { result := some (it.take N), rest := it.drop N,
             dropped := [], calls := N } ∧
    (it.take N).length = N := by
  rw [next_array_eq, if_pos h]
  exact ⟨rfl, by simp [h]⟩

theorem next_array_complete_witness :
    3 ≤ [1, 2, 3, 4, 5].length ∧
    (next_array 3 [1, 2, 3, 4, 5] =
      some { result := some ([1, 2, 3, 4, 5].take 3), rest := [1, 2, 3, 4, 5].drop 3,
             dropped := [], calls := 3 } ∧
    ([1, 2, 3, 4, 5].take 3).length = 3) :=
  ⟨by decide, next_array_complete 3 [1, 2, 3, 4, 5] (by decide)⟩

/-- C2: for every `N ≥ 1` and every iterator holding fewer than `N` items,
`next_array` returns `none` (no partial array), consumes exactly
`min N it.length = it.length` items (the iterator is left empty), and the
pulled items are dropped exactly once each: the dropped list is exactly the
consumed items, in order. -/
theorem next_array_early_exhaustion {T : Type} (N : Nat) (it : List T)
    (h : it.length < N) :
    next_array N it =
      some { result := none, rest := [], dropped := it,
             calls := it.length + 1 } ∧
    it.length = min N it.length := by
  rw [next_array_eq, if_neg (by omega)]
  exact ⟨rfl, by omega⟩

theorem next_array_early_exhaustion_witness :
    [4, 5].length < 3 ∧
    (next_array 3 [4, 5] =
      some { result := none, rest := [], dropped := [4, 5],
             calls := [4, 5].length + 1 } ∧
    [4, 5].length = min 3 [4, 5].length) :=
  ⟨by decide, next_array_early_exhaustion 3 [4, 5] (by decide)⟩

/-- C4: for `N = 0`, `next_array` always returns `some` of the empty array,
regardless of the source's content, consumes zero items (the iterator is
unchanged) and makes zero `next` calls. -/
theorem next_array_zero {T : Type} (it : List T) :
    next_array 0 it =
      some { result := some [], rest := it, dropped := [], calls := 0 } := by
  rw [next_array_eq]
  simp

/-- C10: `next_array` never panics, and calls the iterator's `next` at most
`N` times in total: exactly `N` times when it returns a filled array, and
`k + 1` times (with `k = it.length < N` the number of items the source held)
when it returns `none`. -/
theorem next_array_call_bound {T : Type} (N : Nat) (it : List T) :
    (next_array N it).isSome ∧
    ∀ o, next_array N it = some o →
      o.calls ≤ N ∧
      (o.result.isSome → o.calls = N) ∧
      (o.result = none → o.calls = it.length + 1 ∧ it.length < N) := by
  rw [next_array_eq]
  by_cases h : N ≤ it.length
  · rw [if_pos h]
    refine ⟨rfl, ?_⟩
    intro o ho
    rw [Option.some_inj] at ho
    subst ho
    refine ⟨le_refl N, fun _ => rfl, fun hc => ?_⟩
    simp at hc
  · rw [if_neg h]
    refine ⟨rfl, ?_⟩
    intro o ho
    rw [Option.some_inj] at ho
    subst ho
    refine ⟨by simp; omega, fun hs => ?_, fun _ => ⟨rfl, by omega⟩⟩
    simp at hs

theorem next_array_call_bound_witness :
    ({ result := none, rest := [], dropped := [4, 5], calls := 3 } :
        FillOutcome Nat).calls ≤ 3 :=
  ((next_array_call_bound 3 [4, 5]).2
    { result := none, rest := [], dropped := [4, 5], calls := 3 } (by decide)).1

/-- C3: on a builder holding exactly `N` appended elements, `take` returns
`some` of all `N` elements in append order and resets the builder to the
empty state (`len = 0`, fresh uninitialized storage), whose later drop
destroys nothing; on a builder with `len < N`, `take` returns `none` and
leaves the builder completely unchanged. -/
theorem take_all_or_nothing {T : Type} {N : Nat} (xs : List T)
    (b : ArrayBuilder T N) (hx : xs.length = N) :
    (∀ bf, pushAll (ArrayBuilder.new T N) xs = some bf →
        bf.take = (some xs, ArrayBuilder.new T N) ∧
        (ArrayBuilder.new T N).droppedElems = []) ∧
    (b.len < N → b.take = (none, b)) := by
  constructor
  · intro bf hbf
    rw [← builderOf_nil, pushAll_builderOf T N [] xs (by simp [hx])] at hbf
    rw [Option.some_inj] at hbf
    subst hbf
    refine ⟨take_builderOf_full T N xs (by simpa using hx), ?_⟩
    simp [ArrayBuilder.droppedElems, ArrayBuilder.new]
  · intro hlt
    unfold ArrayBuilder.take
    rw [if_neg (by omega)]

theorem take_all_or_nothing_witness :
    ((ArrayBuilder.mk [some 1, some 2] 2 : ArrayBuilder Nat 2).take =
        (some [1, 2], ArrayBuilder.new Nat 2) ∧
      (ArrayBuilder.new Nat 2).droppedElems = []) ∧
    (ArrayBuilder.new Nat 2).take = (none, ArrayBuilder.new Nat 2) :=
  ⟨((take_all_or_nothing [1, 2] (ArrayBuilder.new Nat 2) (by decide)).1
      (ArrayBuilder.mk [some 1, some 2] 2) (by decide)),
   (take_all_or_nothing [1, 2] (ArrayBuilder.new Nat 2) (by decide)).2 (by decide)⟩

/-- C5: `push` on a builder with `len < N` (storage of the correct length)
succeeds, stores the value at index `len`, increments `len` by exactly one,
keeps the storage length, and leaves every other slot unchanged. -/
theorem push_frame {T : Type} {N : Nat} (b : ArrayBuilder T N) (v : T)
    (hlen : b.arr.length = N) (h : b.len < N) :
    ∀ b2, b.push v = some b2 →
      b2.len = b.len + 1 ∧
      b2.arr.getD b.len none = some v ∧
      b2.arr.length = b.arr.length ∧
      ∀ i, i ≠ b.len → b2.arr.getD i none = b.arr.getD i none := by
  intro b2 h2
  unfold ArrayBuilder.push at h2
  rw [hlen, if_pos h, Option.some_inj] at h2
  subst h2
  refine ⟨rfl, getD_set_self b.arr b.len (some v) none (by omega), by simp,
    fun i hi => getD_set_ne b.arr b.len (some v) none i hi⟩

theorem push_frame_witness :
    (ArrayBuilder.mk [some 7, some 9, none] 2 : ArrayBuilder Nat 3).len = 1 + 1 ∧
    (ArrayBuilder.mk [some 7, some 9, none] 2 : ArrayBuilder Nat 3).arr.getD 1 none = some 9 ∧
    (ArrayBuilder.mk [some 7, some 9, none] 2 : ArrayBuilder Nat 3).arr.getD 0 none =
      (ArrayBuilder.mk [some 7, none, none] 1 : ArrayBuilder Nat 3).arr.getD 0 none := by
  have hf := push_frame (ArrayBuilder.mk [some 7, none, none] 1 : ArrayBuilder Nat 3) 9
    (by decide) (by decide) (ArrayBuilder.mk [some 7, some 9, none] 2) (by decide)
  exact ⟨hf.1, hf.2.1, hf.2.2.2 0 (by decide)⟩

/-- C6: calling `push` on a builder whose `len` is already `N` hits the
out-of-bounds index, a panic (modelled as result `none`), not a recoverable
value-level error; under the precondition `len < N` the panic branch is
unreachable (`push` always returns `some`). -/
theorem push_overflow_panics {T : Type} {N : Nat} (b : ArrayBuilder T N)
    (v : T) (h : b.Inv) :
    (b.len = N → b.push v = none) ∧ (b.len < N → (b.push v).isSome) := by
  obtain ⟨hlen, _, _⟩ := h
  constructor
  · intro hfull
    unfold ArrayBuilder.push
    rw [hlen, if_neg (by omega)]
  · intro hlt
    unfold ArrayBuilder.push
    rw [hlen, if_pos hlt]
    rfl

theorem push_overflow_panics_witness :
    (ArrayBuilder.new Nat 0).push 7 = none :=
  (push_overflow_panics (ArrayBuilder.new Nat 0) 7 (by decide)).1 rfl

/-- C7: discarding a builder after appending `k < N` elements destroys
exactly those `k` elements, in append order and each exactly once, leaves
the builder's `len` at `k`, never reads the `N - k` untouched slots (every
slot at index `≥ k` is still uninitialized, and the dropped list only
depends on the first `len` slots). -/
theorem discard_before_completion {T : Type} {N : Nat} (xs : List T)
    (h : xs.length < N) :
    ∀ b, pushAll (ArrayBuilder.new T N) xs = some b →
      b.droppedElems = xs ∧
      b.droppedElems.length = xs.length ∧
      b.len = xs.length ∧
      (∀ i, xs.length ≤ i → b.arr.getD i none = none) ∧
      (∀ c : ArrayBuilder T N, c.len = b.len →
        c.arr.take c.len = b.arr.take b.len → c.droppedElems = b.droppedElems) := by
  intro b hb
  rw [← builderOf_nil, pushAll_builderOf T N [] xs (by simp; omega),
    Option.some_inj] at hb
  simp only [List.nil_append] at hb
  subst hb
  refine ⟨droppedElems_builderOf T N xs, ?_, by simp [builderOf], ?_, ?_⟩
  · rw [droppedElems_builderOf T N xs]
  · intro i hi
    unfold builderOf
    simp only []
    by_cases hiN : i < N
    · have hidx : xs.length = (xs.map some).length := by simp
      rw [List.getD_eq_getElem?_getD, List.getElem?_append_right (by simpa using hi)]
      simp only [List.length_map]
      rw [← List.getD_eq_getElem?_getD, getD_replicate_none]
    · rw [List.getD_eq_default]
      simp
      omega
  · intro c hclen harr
    unfold ArrayBuilder.droppedElems
    rw [harr]

theorem discard_before_completion_witness :
    (ArrayBuilder.mk [some 7, some 8, none, none] 2 : ArrayBuilder Nat 4).droppedElems =
      [7, 8] := by
  have hd := discard_before_completion (N := 4) [7, 8] (by decide)
    (ArrayBuilder.mk [some 7, some 8, none, none] 2) (by decide)
  exact hd.1

/-- C8: the invariant `0 ≤ len ≤ N`, with the leading `len` slots valid, is
established by `new` (`len = 0`) and preserved by every successful `push` and
by `take`; moreover every valid slot holds exactly one live value (the drop
list has exactly `len` entries). -/
theorem builder_invariant {T : Type} {N : Nat} (b : ArrayBuilder T N)
    (v : T) (h : b.Inv) :
    (ArrayBuilder.new T N).Inv ∧ (ArrayBuilder.new T N).len = 0 ∧
    (∀ b2, b.push v = some b2 → b2.Inv) ∧
    (b.take).2.Inv ∧
    b.droppedElems.length = b.len := by
  obtain ⟨hlen, hle, hval⟩ := h
  refine ⟨?_, rfl, ?_, ?_, ?_⟩
  · refine ⟨by simp [ArrayBuilder.new], by simp [ArrayBuilder.new], ?_⟩
    intro o ho
    simp [ArrayBuilder.new] at ho
  · intro b2 h2
    unfold ArrayBuilder.push at h2
    by_cases hcond : b.len < b.arr.length
    · rw [if_pos hcond, Option.some_inj] at h2
      subst h2
      refine ⟨by simp [hlen], ?_, ?_⟩
      · show b.len + 1 ≤ N
        omega
      · show ∀ o ∈ (b.arr.set b.len (some v)).take (b.len + 1), o.isSome
        rw [take_succ_set b.arr b.len (some v) hcond]
        intro o ho
        rw [List.mem_append] at ho
        rcases ho with ho | ho
        · exact hval o ho
        · simp at ho
          subst ho
          rfl
    · rw [if_neg hcond] at h2
      exact absurd h2 (by simp)
  · unfold ArrayBuilder.take
    by_cases hfull : b.len = N
    · rw [if_pos hfull]
      refine ⟨by simp, by simp, ?_⟩
      intro o ho
      simp at ho
    · rw [if_neg hfull]
      exact ⟨hlen, hle, hval⟩
  · unfold ArrayBuilder.droppedElems
    rw [filterMap_id_length _ hval]
    simp only [List.length_take]
    omega

theorem builder_invariant_witness :
    (ArrayBuilder.mk [some 5, none] 1 : ArrayBuilder Nat 2).Inv := by
  have hb := builder_invariant (ArrayBuilder.new Nat 2) 5 (by decide)
  exact hb.2.2.1 (ArrayBuilder.mk [some 5, none] 1) (by decide)

/-- C9 fails as stated at `N = 0`: the empty builder of capacity `0` is full
(`len = 0 = N`), the first `take` succeeds, but the second `take` returns
`some []` again (since `len = 0 = N` still holds), not `none`. -/
theorem double_take_counterexample :
    (ArrayBuilder.new Nat 0).len = 0 ∧
    ((ArrayBuilder.new Nat 0).take).1 = some [] ∧
    (((ArrayBuilder.new Nat 0).take).2.take).1 = some [] ∧
    (((ArrayBuilder.new Nat 0).take).2.take).1 ≠ none := by decide

/-- C9 amended: for `N ≥ 1`, calling `take` twice in a row on a full builder:
the first call succeeds, returning each valid element exactly once, and
resets the builder to the empty state; the second call returns `none` and
changes nothing; the builder's eventual drop destroys nothing — so no element
is ever released twice. -/
theorem double_take {T : Type} {N : Nat} (b : ArrayBuilder T N)
    (h : b.Inv) (hfull : b.len = N) (hN : 1 ≤ N) :
    b.take.1 = some b.droppedElems ∧
    b.droppedElems.length = N ∧
    b.take.2 = ArrayBuilder.new T N ∧
    (b.take.2).take.1 = none ∧
    ((b.take.2).take).2 = b.take.2 ∧
    (b.take.2).droppedElems = [] := by
  obtain ⟨hlen, hle, hval⟩ := h
  have htake : b.arr.take b.len = b.arr := by
    apply List.take_of_length_le
    omega
  have hval2 : ∀ o ∈ b.arr, o.isSome := by
    rw [← htake]
    exact hval
  have h1 : b.take = (some (b.arr.filterMap id), ArrayBuilder.new T N) := by
    unfold ArrayBuilder.take
    rw [if_pos hfull, assumeInitAll_eq_filterMap b.arr hval2]
    rfl
  have hdrop : b.droppedElems = b.arr.filterMap id := by
    unfold ArrayBuilder.droppedElems
    rw [htake]
  have h2 : (ArrayBuilder.new T N).take = (none, ArrayBuilder.new T N) := by
    unfold ArrayBuilder.take ArrayBuilder.new
    simp only []
    rw [if_neg (by omega)]
  refine ⟨by rw [h1, hdrop], ?_, by rw [h1], by rw [h1, h2], by rw [h1, h2], ?_⟩
  · rw [hdrop, filterMap_id_length b.arr hval2, hlen]
  · rw [h1]
    simp [ArrayBuilder.droppedElems, ArrayBuilder.new]

theorem double_take_witness :
    (((ArrayBuilder.mk [some 3] 1 : ArrayBuilder Nat 1).take.2).take).1 = none := by
  have hd := double_take (ArrayBuilder.mk [some 3] 1 : ArrayBuilder Nat 1)
    (by decide) rfl (by decide)
  exact hd.2.2.2.1
